import Mathlib

/-!
Formal model of the xmlbuilder2 serialization core: the DOM tree-order
utility algorithms (`Utility.forEachDescendant`, `Utility.treePosition`,
`Utility.isPreceding`, `Utility.isFollowing`, `Utility.extractNames`) and
the JSON renderer (`JSONWriterImpl._serializeObject`, `_beginLine`,
`_endLine`, `_isLeafNode`, `_descendantCount`), translated from the
TypeScript source.  Node identity (`===` on node references) is modelled
by a numeric node id playing the role of the reference address; all
concrete trees used below give distinct ids to distinct nodes.
-/

/-! Part I: definitions. -/

mutual
/-- A DOM node as the utilities see it: an identity (standing for the JS
object reference) and an ordered list of child nodes.  The mutual list
type keeps all recursion structural. -/
inductive JNode where
  | mk (nid : Nat) (children : JNodeList)
/-- Ordered child list of a `JNode`. -/
inductive JNodeList where
  | nil
  | cons (head : JNode) (tail : JNodeList)
end

/-- Identity of a node (models the JS object reference used by `===`). -/
def JNode.nid : JNode → Nat
  | .mk i _ => i

/-- Child list of a node (models `node.childNodes`). -/
def JNode.children : JNode → JNodeList
  | .mk _ cs => cs

/-- Builds a `JNodeList` from a plain list, for writing concrete trees. -/
def JNodeList.ofList : List JNode → JNodeList
  | [] => .nil
  | n :: rest => .cons n (JNodeList.ofList rest)

mutual
/-- Preorder list of all proper descendants of a node: each child appears
before its own descendants, and a child's whole subtree appears before
the next sibling, matching document order. -/
def descendants : JNode → List JNode
  | .mk _ cs => descendantsList cs
/-- Preorder descendant list of a forest of siblings. -/
def descendantsList : JNodeList → List JNode
  | .nil => []
  | .cons child rest => child :: (descendants child ++ descendantsList rest)
end

mutual
/-- Translation of `Utility.forEachDescendant(node, func)`: visit each
child in stored order, apply `func`, stop and return the first truthy
result (`some`), otherwise recurse into the child before moving to the
next sibling; `none` models the implicit `undefined` when the traversal
is exhausted.  The JS callback may close over mutable state, so `func`
threads an explicit state `σ`. -/
def forEachDescendant {σ β : Type} (func : σ → JNode → σ × Option β) :
    JNode → σ → σ × Option β
  | .mk _ cs, s => forEachDescendantList func cs s
/-- Loop of `forEachDescendant` over a child list. -/
def forEachDescendantList {σ β : Type} (func : σ → JNode → σ × Option β) :
    JNodeList → σ → σ × Option β
  | .nil, s => (s, none)
  | .cons child rest, s =>
    match func s child with
    | (s1, some v) => (s1, some v)
    | (s1, none) =>
      match forEachDescendant func child s1 with
      | (s2, some v) => (s2, some v)
      | (s2, none) => forEachDescendantList func rest s2
end

/-- Translation of `Utility.treePosition(root, node)`: `-1` for a null
root; otherwise run `forEachDescendant` with the callback
`pos++; if (!found && childNode === node) found = true` (which never
returns a truthy value, so the traversal never stops early) and return
`pos` if `found`, else `-1`. -/
def treePosition (root : Option JNode) (node : JNode) : Int :=
  match root with
  | none => -1
  | some root =>
    let result := forEachDescendant
      (fun (st : Nat × Bool) childNode =>
        ((st.1 + 1, st.2 || (childNode.nid == node.nid)), (none : Option Unit)))
      root (0, false)
    if result.1.2 then (result.1.1 : Int) else -1

/-- A node together with its `ownerDocument` back-reference, as consumed
by `isPreceding` / `isFollowing`. -/
structure NodeRef where
  ownerDocument : Option JNode
  self : JNode

/-- Translation of `Utility.isPreceding(node, other)`: look up both
nodes' positions in their own owner documents and compare; `false`
whenever either lookup returns `-1`. -/
def isPreceding (node other : NodeRef) : Bool :=
  let nodePos := treePosition node.ownerDocument node.self
  let otherPos := treePosition other.ownerDocument other.self
  if nodePos == -1 || otherPos == -1 then false
  else decide (otherPos < nodePos)

/-- Translation of `Utility.isFollowing(node, other)`: same lookups as
`isPreceding` with the comparison reversed. -/
def isFollowing (node other : NodeRef) : Bool :=
  let nodePos := treePosition node.ownerDocument node.self
  let otherPos := treePosition other.ownerDocument other.self
  if nodePos == -1 || otherPos == -1 then false
  else decide (otherPos > nodePos)

/-- Concrete document for the `treePosition` claim: a root (id 0) with
two leaf children (ids 1 and 2). -/
def rootC1 : JNode := JNode.mk 0 (JNodeList.ofList [JNode.mk 1 .nil, JNode.mk 2 .nil])

/-- The first child (id 1) of `rootC1`, the node whose position is asked. -/
def nodeC1 : JNode := JNode.mk 1 .nil

/-- Concrete document (id 0) with three leaf children, for the
`isPreceding` claims. -/
def docA : JNode :=
  JNode.mk 0 (JNodeList.ofList [JNode.mk 1 .nil, JNode.mk 2 .nil, JNode.mk 3 .nil])

/-- Concrete document (id 10) with one leaf child, disjoint from `docA`. -/
def docB : JNode := JNode.mk 10 (JNodeList.ofList [JNode.mk 11 .nil])

/-- Concrete document (id 20) with two leaf children, for the
preceding/following symmetry claim. -/
def docC : JNode := JNode.mk 20 (JNodeList.ofList [JNode.mk 21 .nil, JNode.mk 22 .nil])

/-- Concrete document (id 30) with one leaf child, disjoint from `docC`. -/
def docD : JNode := JNode.mk 30 (JNodeList.ofList [JNode.mk 31 .nil])

mutual
/-- A value of the writer's intermediate representation
(`XMLSerializedValue`): a scalar, an array, or an ordered map.  The JS
union also admits plain non-container values of other shapes; the
renderer coerces every such value to a string with `'"' + obj + '"'`, so
`scalar` carries exactly that coerced string. -/
inductive XMLSerializedValue where
  | scalar (coerced : String)
  | arr (items : XMLValueList)
  | map (entries : XMLEntryList)
/-- Ordered items of an array value. -/
inductive XMLValueList where
  | nil
  | cons (head : XMLSerializedValue) (tail : XMLValueList)
/-- Ordered key/value entries of a map or plain-object value (`isMap` and
`isObject` are handled identically by the renderer). -/
inductive XMLEntryList where
  | nil
  | cons (key : String) (value : XMLSerializedValue) (tail : XMLEntryList)
end

/-- Number of items of an array value (models `obj.length`). -/
def XMLValueList.length : XMLValueList → Nat
  | .nil => 0
  | .cons _ t => t.length + 1

/-- Number of entries of a map value (models `objectLength(obj)`). -/
def XMLEntryList.length : XMLEntryList → Nat
  | .nil => 0
  | .cons _ _ t => t.length + 1

mutual
/-- Translation of `JSONWriterImpl._descendantCount(obj, count)`: a
scalar returns `count + 1`; a composite loops over its children with
`count += this._descendantCount(val, count)`, i.e. the running
accumulator is also passed down into each recursive call. -/
def descendantCount : XMLSerializedValue → Nat → Nat
  | .scalar _, count => count + 1
  | .arr items, count => descendantCountItems items count
  | .map entries, count => descendantCountEntries entries count
/-- Loop of `_descendantCount` over array items. -/
def descendantCountItems : XMLValueList → Nat → Nat
  | .nil, count => count
  | .cons v rest, count => descendantCountItems rest (count + descendantCount v count)
/-- Loop of `_descendantCount` over map entries. -/
def descendantCountEntries : XMLEntryList → Nat → Nat
  | .nil, count => count
  | .cons _ v rest, count => descendantCountEntries rest (count + descendantCount v count)
end

/-- Translation of `JSONWriterImpl._isLeafNode(obj)`:
`_descendantCount(obj) <= 1`. -/
def isLeafNode (obj : XMLSerializedValue) : Bool :=
  decide (descendantCount obj 0 ≤ 1)

mutual
/-- Modelled from the spec: the descendant count the specification
describes for the JSON renderer, "every scalar as count 1 and every
composite as the sum over children (not incremented for the composite
node itself)".  Kept separate from `descendantCount` (the code's
algorithm) so the two can be compared. -/
def specDescendantSum : XMLSerializedValue → Nat
  | .scalar _ => 1
  | .arr items => specSumItems items
  | .map entries => specSumEntries entries
/-- Sum of `specDescendantSum` over array items. -/
def specSumItems : XMLValueList → Nat
  | .nil => 0
  | .cons v rest => specDescendantSum v + specSumItems rest
/-- Sum of `specDescendantSum` over map entries. -/
def specSumEntries : XMLEntryList → Nat
  | .nil => 0
  | .cons _ v rest => specDescendantSum v + specSumEntries rest
end

/-- JSON writer options relevant to rendering, with the defaults applied
by `serialize` (`prettyPrint: false, indent: '  ', newline: '\n',
offset: 0`).  `offset` is a JS number that may be negative, hence `Int`. -/
structure JSONWriterOptions where
  prettyPrint : Bool
  indent : String
  newline : String
  offset : Int

/-- Model of the JS expression `new Array(n).join(sep)`: `n` empty slots
joined with `sep`, which yields `sep` repeated `n - 1` times (and the
empty string for `n = 0` and `n = 1`). -/
def arrayJoin (n : Nat) (sep : String) : String :=
  match n with
  | 0 => ""
  | 1 => ""
  | k + 2 => sep ++ arrayJoin (k + 1) sep

/-- Repetition of a string `n` times, the notion used by the
specification when it speaks of "the indent string repeated k times". -/
def indentRepeat (n : Nat) (s : String) : String :=
  match n with
  | 0 => ""
  | k + 1 => s ++ indentRepeat k s

/-- Translation of `JSONWriterImpl._beginLine(options, level)`: empty
unless pretty-printing; otherwise `new Array(offset + level + 1).join(indent)`
guarded by `indentLevel > 0`. -/
def beginLine (opts : JSONWriterOptions) (level : Nat) : String :=
  if !opts.prettyPrint then ""
  else
    let indentLevel : Int := opts.offset + (level : Int) + 1
    if indentLevel > 0 then arrayJoin indentLevel.toNat opts.indent
    else ""

/-- Translation of `JSONWriterImpl._endLine(options, level)`: empty
unless pretty-printing, otherwise the configured newline string (the
level parameter is accepted, as in the source, but unused). -/
def endLine (opts : JSONWriterOptions) (_level : Nat) : String :=
  if !opts.prettyPrint then "" else opts.newline

mutual
/-- Translation of `JSONWriterImpl._serializeObject(obj, options, level)`.
Arrays emit `[`, each item on its own (pretty) line at `level + 1`, a
comma after every item but the last, and a closing line at `level`; maps
emit the same shape except that a leaf node in pretty mode separates its
entries with single spaces instead of newlines, and every key gets a
space after the colon in pretty mode; anything else is the scalar branch
`'"' + obj + '"'`. -/
def serializeObject (opts : JSONWriterOptions) : XMLSerializedValue → Nat → String
  | .scalar s, _ => "\"" ++ s ++ "\""
  | .arr items, level =>
    "[" ++ serializeItems opts items level items.length 0 ++
      endLine opts level ++ beginLine opts level ++ "]"
  | .map entries, level =>
    "\x7b" ++ serializeEntries opts entries level entries.length 0 (isLeafNode (.map entries)) ++
      (if isLeafNode (.map entries) && opts.prettyPrint then " "
       else endLine opts level ++ beginLine opts level) ++ "\x7d"
/-- Loop of `_serializeObject` over array items (`len` is the array
length, `i` the current index, for the trailing-comma test). -/
def serializeItems (opts : JSONWriterOptions) :
    XMLValueList → Nat → Nat → Nat → String
  | .nil, _, _, _ => ""
  | .cons v rest, level, len, i =>
    endLine opts (level + 1) ++ beginLine opts (level + 1) ++
      serializeObject opts v (level + 1) ++
      (if i < len - 1 then "," else "") ++
      serializeItems opts rest level len (i + 1)
/-- Loop of `_serializeObject` over map entries (`isLeaf` was computed
once for the whole map). -/
def serializeEntries (opts : JSONWriterOptions) :
    XMLEntryList → Nat → Nat → Nat → Bool → String
  | .nil, _, _, _, _ => ""
  | .cons key v rest, level, len, i, isLeaf =>
    (if isLeaf && opts.prettyPrint then " "
     else endLine opts (level + 1) ++ beginLine opts (level + 1)) ++
      "\"" ++ key ++ "\":" ++ (if opts.prettyPrint then " " else "") ++
      serializeObject opts v (level + 1) ++
      (if i < len - 1 then "," else "") ++
      serializeEntries opts rest level len (i + 1) isLeaf
end

/-- Tail of `JSONWriterImpl.serialize` after the map-writer step: the
rendered value is `_beginLine(options, 0) + _serializeObject(obj, options)`. -/
def serializeValue (opts : JSONWriterOptions) (obj : XMLSerializedValue) : String :=
  beginLine opts 0 ++ serializeObject opts obj 0

/-- Writer options with `prettyPrint: true` and the other defaults. -/
def prettyDefaultOptions : JSONWriterOptions := ⟨true, "  ", "\n", 0⟩

/-- Writer options with all defaults (`prettyPrint: false`). -/
def compactDefaultOptions : JSONWriterOptions := ⟨false, "  ", "\n", 0⟩

/-- Single-entry map value standing for the serialized form of
`{"a":"1"}`. -/
def leafMapA : XMLSerializedValue :=
  XMLSerializedValue.map (.cons "a" (.scalar "1") .nil)

/-- Two-scalar map value, the counterexample input for the descendant
count claim. -/
def twoScalarMap : XMLSerializedValue :=
  XMLSerializedValue.map (.cons "a" (.scalar "1") (.cons "b" (.scalar "2") .nil))

/-- Error kinds raised by the name-validation utilities. -/
inductive DOMException where
  | InvalidCharacterError
  | NamespaceError
deriving DecidableEq

/-- The fixed XML namespace URI (`DOMImplementation.Namespace.XML`). -/
def namespaceXML : String := "http://www.w3.org/XML/1998/namespace"

/-- The fixed XMLNS namespace URI (`DOMImplementation.Namespace.XMLNS`). -/
def namespaceXMLNS : String := "http://www.w3.org/2000/xmlns/"

/-- Model of the JS expression `qualifiedName.split(':')` at the
character level: splits at every colon, keeping empty pieces, so that
`""` gives `[""]` and `"a:b"` gives `["a", "b"]`. -/
def splitColonChars : List Char → List (List Char)
  | [] => [[]]
  | c :: rest =>
    if c = ':' then [] :: splitColonChars rest
    else
      match splitColonChars rest with
      | [] => [[c]]
      | g :: gs => (c :: g) :: gs

/-- String form of `splitColonChars`. -/
def splitColon (s : String) : List String :=
  (splitColonChars s.data).map (fun cs => String.mk cs)

/-- Modelled from the spec: a character that may start an XML `Name`
(the `DOMImplementation.XMLSpec.Name` regular expression is not part of
the sources under scrutiny); restricted to the ASCII letters plus
underscore and colon, which covers every name the claims exercise. -/
def isNameStartChar (c : Char) : Bool :=
  c.isAlpha || c == '_' || c == ':'

/-- Modelled from the spec: a non-initial XML `Name` character (ASCII
scope). -/
def isNameChar (c : Char) : Bool :=
  isNameStartChar c || c.isDigit || c == '-' || c == '.'

/-- Modelled from the spec: the XML `Name` production — nonempty, a name
start character followed by name characters. -/
def matchesName (s : String) : Bool :=
  match s.data with
  | [] => false
  | c :: rest => isNameStartChar c && rest.all isNameChar

/-- Modelled from the spec: an `NCName` — a nonempty colon-free name. -/
def ncNameOk (s : String) : Bool :=
  match s.data with
  | [] => false
  | c :: rest =>
    (isNameStartChar c && !(c == ':')) && rest.all (fun d => isNameChar d && !(d == ':'))

/-- Modelled from the spec: the `QName` production — a local name or a
prefixed form with exactly one colon separating two nonempty parts. -/
def matchesQName (s : String) : Bool :=
  match splitColon s with
  | [l] => ncNameOk l
  | [p, l] => ncNameOk p && ncNameOk l
  | _ => false

/-- Translation of `Utility.validateQName(qualifiedName)`, with the two
regular expressions modelled from the spec: an `InvalidCharacterError`
unless the string matches both the `Name` and the `QName` production. -/
def validateQName (qualifiedName : String) : Except DOMException Unit :=
  if !matchesName qualifiedName then .error .InvalidCharacterError
  else if !matchesQName qualifiedName then .error .InvalidCharacterError
  else .ok ()

/-- Model of the coercion `if (!namespace) namespace = null` applied at
the top of `extractNames`: the empty string is falsy and becomes null. -/
def normalizeNamespace : Option String → Option String
  | none => none
  | some s => if s = "" then none else some s

/-- The `parts.length === 2 ? parts[0] : null` computation of
`extractNames`. -/
def qnamePfx (q : String) : Option String :=
  match splitColon q with
  | [p, _] => some p
  | _ => none

/-- The `parts.length === 2 ? parts[1] : qualifiedName` computation of
`extractNames`. -/
def qnameLocal (q : String) : String :=
  match splitColon q with
  | [_, l] => l
  | _ => q

/-- Truthiness of a nullable JS string: non-null and nonempty. -/
def strTruthy : Option String → Bool
  | some s => !s.isEmpty
  | none => false

/-- Translation of `Utility.extractNames(namespace, qualifiedName)`:
normalize the namespace, validate the qualified name, split it into
prefix and local name, then apply the four namespace checks in source
order, raising `NamespaceError` on the first violation, and otherwise
return the `(namespace, prefix, localName)` triple. -/
def extractNames (ns? : Option String) (qualifiedName : String) :
    Except DOMException (Option String × Option String × String) :=
  match validateQName qualifiedName with
  | .error e => .error e
  | .ok _ =>
    if strTruthy (qnamePfx qualifiedName) ∧ normalizeNamespace ns? = none then
      .error .NamespaceError
    else if qnamePfx qualifiedName = some "xml" ∧
        normalizeNamespace ns? ≠ some namespaceXML then
      .error .NamespaceError
    else if normalizeNamespace ns? ≠ some namespaceXMLNS ∧
        (qnamePfx qualifiedName = some "xmlns" ∨ qualifiedName = "xmlns") then
      .error .NamespaceError
    else if normalizeNamespace ns? = some namespaceXMLNS ∧
        (qnamePfx qualifiedName ≠ some "xmlns" ∧ qualifiedName ≠ "xmlns") then
      .error .NamespaceError
    else .ok (normalizeNamespace ns?, qnamePfx qualifiedName, qnameLocal qualifiedName)

/-! Part II: theorems. -/

/-- Auxiliary: `findSome?` over an appended list tries the left part
first. -/
theorem findSomeAppend {α β : Type} (f : α → Option β) (l1 l2 : List α) :
    (l1 ++ l2).findSome? f =
      match l1.findSome? f with
      | some r => some r
      | none => l2.findSome? f := by
  induction l1 with
  | nil => simp [List.findSome?]
  | cons a l ih =>
    simp only [List.cons_append, List.findSome?_cons]
    cases f a <;> simp [ih]

mutual
/-- Auxiliary: with a stateless callback, `forEachDescendant` returns the
first `some` produced along the preorder descendant list. -/
theorem forEachDescendant_pure {β : Type} (f : JNode → Option β) (n : JNode) :
    forEachDescendant (fun (u : Unit) c => (u, f c)) n () =
      ((), (descendants n).findSome? f) := by
  match n with
  | .mk i cs =>
    simp [forEachDescendant, descendants, forEachDescendantList_pure f cs]
/-- Auxiliary: list form of `forEachDescendant_pure`. -/
theorem forEachDescendantList_pure {β : Type} (f : JNode → Option β) (l : JNodeList) :
    forEachDescendantList (fun (u : Unit) c => (u, f c)) l () =
      ((), (descendantsList l).findSome? f) := by
  match l with
  | .nil => simp [forEachDescendantList, descendantsList, List.findSome?]
  | .cons c rest =>
    simp only [forEachDescendantList, descendantsList, List.findSome?_cons, findSomeAppend]
    cases h : f c with
    | some v => simp
    | none =>
      simp only [forEachDescendant_pure f c, forEachDescendantList_pure f rest]
      cases List.findSome? f (descendants c) <;> simp
end

mutual
/-- Auxiliary: a callback that never returns a truthy value makes
`forEachDescendant` visit every descendant in preorder and fold its state
over them. -/
theorem forEachDescendant_const {σ β : Type} (func : σ → JNode → σ × Option β)
    (h : ∀ s n, (func s n).2 = none) (n : JNode) (s : σ) :
    forEachDescendant func n s =
      ((descendants n).foldl (fun s n => (func s n).1) s, none) := by
  match n with
  | .mk i cs =>
    simp [forEachDescendant, descendants, forEachDescendantList_const func h cs s]
/-- Auxiliary: list form of `forEachDescendant_const`. -/
theorem forEachDescendantList_const {σ β : Type} (func : σ → JNode → σ × Option β)
    (h : ∀ s n, (func s n).2 = none) (l : JNodeList) (s : σ) :
    forEachDescendantList func l s =
      ((descendantsList l).foldl (fun s n => (func s n).1) s, none) := by
  match l with
  | .nil => simp [forEachDescendantList, descendantsList]
  | .cons c rest =>
    simp only [forEachDescendantList, descendantsList, List.foldl_cons, List.foldl_append]
    have hc := h s c
    cases hfc : func s c with
    | mk s1 r =>
      rw [hfc] at hc; simp at hc; subst hc
      simp only [forEachDescendant_const func h c s1,
        forEachDescendantList_const func h rest]
end

/-- Auxiliary: folding the `treePosition` counting step over a list adds
the list length to `pos` and ors `found` with an id match test. -/
theorem foldlCount (t : Nat) (l : List JNode) :
    ∀ (p : Nat) (b : Bool),
      l.foldl (fun (st : Nat × Bool) c => (st.1 + 1, st.2 || (c.nid == t))) (p, b) =
        (p + l.length, b || l.any (fun c => c.nid == t)) := by
  induction l with
  | nil => intro p b; simp
  | cons c rest ih =>
    intro p b
    simp only [List.foldl_cons, List.any_cons, ih, List.length_cons]
    refine Prod.ext (by omega) (by simp [Bool.or_assoc])

/-- Auxiliary: closed form of `treePosition` on a non-null root: whenever
the node occurs among the root's descendants the result is the total
number of descendants of the root (the counter is bumped for every
visited node, found or not), and `-1` otherwise. -/
theorem treePosition_char (root node : JNode) :
    treePosition (some root) node =
      if (descendants root).any (fun c => c.nid == node.nid)
      then ((descendants root).length : Int) else -1 := by
  have h := forEachDescendant_const
    (fun (st : Nat × Bool) childNode =>
      ((st.1 + 1, st.2 || (childNode.nid == node.nid)), (none : Option Unit)))
    (fun s n => rfl) root (0, false)
  simp only [treePosition, h]
  rw [foldlCount]
  simp

/-- Claim C8: `forEachDescendant(node, visit)` performs a depth-first
preorder traversal over all descendants of `node` excluding `node`
itself, children in stored order before their own children; it stops at
the first descendant for which `visit` returns a truthy value and
returns that value (`List.findSome?` over the preorder descendant list),
and returns the undefined-equivalent `none` when exhausted. -/
theorem forEachDescendant_preorder_first_truthy {β : Type}
    (f : JNode → Option β) (n : JNode) :
    forEachDescendant (fun (u : Unit) c => (u, f c)) n () =
      ((), (descendants n).findSome? f) :=
  forEachDescendant_pure f n

/-- Claim C1 (refuted, code bug): `treePosition(root, node)` does not
return 1 plus the number of nodes visited strictly before `node`; the
counting callback never freezes `pos`, so whenever `node` is found the
function returns the total number of descendants of `root`.  Concretely,
for a root with two children the first child (zero nodes strictly before
it in preorder, so the claim demands 1) gets position 2.  The `-1` iff
absent half does hold. -/
theorem treePosition_total_count_bug :
    (∀ root node, treePosition (some root) node =
      if (descendants root).any (fun c => c.nid == node.nid)
      then ((descendants root).length : Int) else -1) ∧
    treePosition (some rootC1) nodeC1 = 2 ∧
    (descendants rootC1).map JNode.nid = [1, 2] ∧
    nodeC1.nid = 1 :=
  ⟨treePosition_char, by decide, by decide, rfl⟩

/-- Claim C2 (refuted, code bug): `isPreceding(node, other)` returns
`true` for the node with id 1 owned by `docA` against the node with id
11 owned by the disjoint document `docB` (their descendant id lists
`[1, 2, 3]` and `[11]` share nothing), although the claim requires both
nodes to resolve in the same owning document's tree; and it returns
`false` for two nodes of the same document `docA` where `other` (id 1)
does precede `node` (id 3), because both positions collapse to the total
descendant count. -/
theorem isPreceding_cross_document_bug :
    isPreceding ⟨some docA, JNode.mk 1 .nil⟩ ⟨some docB, JNode.mk 11 .nil⟩ = true ∧
    isPreceding ⟨some docA, JNode.mk 3 .nil⟩ ⟨some docA, JNode.mk 1 .nil⟩ = false ∧
    (descendants docA).map JNode.nid = [1, 2, 3] ∧
    (descendants docB).map JNode.nid = [11] :=
  ⟨by decide, by decide, by decide, by decide⟩

/-- Claim C7, counterexample: two nodes owned by disjoint documents
(`docC` with descendant ids `[21, 22]`, `docD` with `[31]`) have both
`isPreceding a b` and `isFollowing b a` equal to `true`, refuting the
part of the claim that says both are `false` for nodes in different
trees. -/
theorem isPreceding_isFollowing_cross_tree_true :
    isPreceding ⟨some docC, JNode.mk 21 .nil⟩ ⟨some docD, JNode.mk 31 .nil⟩ = true ∧
    isFollowing ⟨some docD, JNode.mk 31 .nil⟩ ⟨some docC, JNode.mk 21 .nil⟩ = true ∧
    (descendants docC).map JNode.nid = [21, 22] ∧
    (descendants docD).map JNode.nid = [31] :=
  ⟨by decide, by decide, by decide, by decide⟩

/-- Claim C7 (amended): for every pair of node references `a` and `b`,
in the same tree or not, `isPreceding a b` equals `isFollowing b a`:
both compute the same two position lookups and compare them the same
way.  The different-trees-implies-both-false part of the original claim
is refuted by `isPreceding_isFollowing_cross_tree_true`. -/
theorem isPreceding_eq_isFollowing_swap (a b : NodeRef) :
    isPreceding a b = isFollowing b a := by
  unfold isPreceding isFollowing
  generalize treePosition a.ownerDocument a.self = x
  generalize treePosition b.ownerDocument b.self = y
  cases hx : x == -1 <;> cases hy : y == -1 <;> simp [hx, hy, gt_iff_lt]

/-- Claim C10: `treePosition` with a null root returns `-1` rather than
raising, and consequently `isPreceding` / `isFollowing` return `false`
without error whenever either node's `ownerDocument` is null. -/
theorem treePosition_null_root_safe :
    (∀ n, treePosition none n = -1) ∧
    (∀ node other : NodeRef,
      node.ownerDocument = none ∨ other.ownerDocument = none →
      isPreceding node other = false ∧ isFollowing node other = false) := by
  constructor
  · intro n; rfl
  · intro node other h
    rcases h with h | h <;>
      exact ⟨by simp [isPreceding, h, treePosition],
             by simp [isFollowing, h, treePosition]⟩

/-- Witness for `treePosition_null_root_safe` at concrete inputs: a node
with id 5 and no owner document. -/
theorem treePosition_null_root_safe_witness :
    treePosition none (JNode.mk 5 .nil) = -1 ∧
    isPreceding ⟨none, JNode.mk 5 .nil⟩ ⟨some docA, JNode.mk 1 .nil⟩ = false ∧
    isFollowing ⟨none, JNode.mk 5 .nil⟩ ⟨some docA, JNode.mk 1 .nil⟩ = false :=
  ⟨treePosition_null_root_safe.1 _,
   (treePosition_null_root_safe.2 ⟨none, JNode.mk 5 .nil⟩ ⟨some docA, JNode.mk 1 .nil⟩
     (Or.inl rfl)).1,
   (treePosition_null_root_safe.2 ⟨none, JNode.mk 5 .nil⟩ ⟨some docA, JNode.mk 1 .nil⟩
     (Or.inl rfl)).2⟩

mutual
/-- Auxiliary: the code's descendant count dominates the incoming
accumulator plus the specification's plain sum of scalar descendants. -/
theorem specSum_le_count (v : XMLSerializedValue) (c : Nat) :
    c + specDescendantSum v ≤ descendantCount v c := by
  match v with
  | .scalar s => simp [specDescendantSum, descendantCount]
  | .arr items =>
    simpa [specDescendantSum, descendantCount] using specSumItems_le_count items c
  | .map entries =>
    simpa [specDescendantSum, descendantCount] using specSumEntries_le_count entries c
/-- Auxiliary: item-list form of `specSum_le_count`. -/
theorem specSumItems_le_count (l : XMLValueList) (c : Nat) :
    c + specSumItems l ≤ descendantCountItems l c := by
  match l with
  | .nil => simp [specSumItems, descendantCountItems]
  | .cons v rest =>
    simp only [specSumItems, descendantCountItems]
    have h1 := specSum_le_count v c
    have h2 := specSumItems_le_count rest (c + descendantCount v c)
    omega
/-- Auxiliary: entry-list form of `specSum_le_count`. -/
theorem specSumEntries_le_count (l : XMLEntryList) (c : Nat) :
    c + specSumEntries l ≤ descendantCountEntries l c := by
  match l with
  | .nil => simp [specSumEntries, descendantCountEntries]
  | .cons k v rest =>
    simp only [specSumEntries, descendantCountEntries]
    have h1 := specSum_le_count v c
    have h2 := specSumEntries_le_count rest (c + descendantCount v c)
    omega
end

/-- Claim C3, counterexample: for the map with the two scalar entries
`"1"` and `"2"` the code's descendant count is 3, not the sum 2 of its
children's counts — the loop `count += _descendantCount(val, count)`
feeds the running accumulator back into the recursive call, so the
second child is counted on top of the accumulated 1. -/
theorem descendantCount_not_sum_of_children :
    descendantCount twoScalarMap 0 = 3 ∧
    descendantCount (.scalar "1") 0 + descendantCount (.scalar "2") 0 = 2 ∧
    descendantCount twoScalarMap 0 ≠
      descendantCount (.scalar "1") 0 + descendantCount (.scalar "2") 0 :=
  ⟨by decide, by decide, by decide⟩

/-- Claim C3 (amended): every scalar counts as the accumulator plus
exactly 1 (so exactly 1 when counting starts at 0); a composite is never
incremented for itself, but its count is the left fold
`count += _descendantCount(child, count)` over its children, which is at
least — not in general equal to — the plain sum of the children's
counts; and a value is a leaf node exactly when the code's count from 0
is at most 1. -/
theorem descendantCount_amended :
    (∀ s c, descendantCount (.scalar s) c = c + 1) ∧
    (∀ v, specDescendantSum v ≤ descendantCount v 0) ∧
    (∀ v, isLeafNode v = decide (descendantCount v 0 ≤ 1)) :=
  ⟨fun _ _ => rfl,
   fun v => by simpa using specSum_le_count v 0,
   fun _ => rfl⟩

/-- Claim C4, counterexample: with `prettyPrint: true` the single-entry
map `(("a" : "1"))` does not render as the claimed string
`\x7b "a":"1" \x7d`: the renderer also inserts a space after the colon
in pretty mode. -/
theorem serializeLeafMap_not_claimed_string :
    serializeValue prettyDefaultOptions leafMapA ≠ "\x7b \"a\":\"1\" \x7d" := by
  decide

/-- Claim C4 (amended): with `prettyPrint: true` the single-entry map
with scalar value renders as the compact single-line form
`\x7b "a": "1" \x7d` — one line, entries separated by single spaces,
with a space after the colon — and the output contains no newline. -/
theorem serializeLeafMap_compact_line :
    serializeValue prettyDefaultOptions leafMapA = "\x7b \"a\": \"1\" \x7d" ∧
    '\n' ∉ (serializeValue prettyDefaultOptions leafMapA).data :=
  ⟨by decide, by decide⟩

/-- Claim C9: the rendering function is total over `XMLSerializedValue`
inputs — it is a total function in this model, matching the absence of
any throwing path in the source — and every non-composite value takes
the fall-through scalar branch, rendering as its string coercion wrapped
in quotes; moreover the output is never empty. -/
theorem serializeObject_total_scalar_fallthrough
    (opts : JSONWriterOptions) (level : Nat) :
    (∀ s, serializeObject opts (.scalar s) level = "\"" ++ s ++ "\"") ∧
    (∀ v, 0 < (serializeObject opts v level).length) := by
  refine ⟨fun s => rfl, fun v => ?_⟩
  cases v with
  | scalar s =>
    have h1 : ("\"" : String).length = 1 := rfl
    simp only [serializeObject, String.length_append]
    omega
  | arr items =>
    have h1 : ("[" : String).length = 1 := rfl
    simp only [serializeObject, String.length_append]
    omega
  | map entries =>
    have h1 : ("\x7b" : String).length = 1 := rfl
    simp only [serializeObject, String.length_append]
    omega

/-- Auxiliary: joining `m + 1` empty array slots with `sep` yields `sep`
repeated `m` times. -/
theorem arrayJoin_succ (m : Nat) (sep : String) :
    arrayJoin (m + 1) sep = indentRepeat m sep := by
  induction m with
  | zero => rfl
  | succ k ih => rw [arrayJoin, ih]; rfl

/-- Auxiliary: with pretty-printing off, `_beginLine` is empty at every
level. -/
theorem beginLine_not_pretty (opts : JSONWriterOptions)
    (h : opts.prettyPrint = false) (level : Nat) : beginLine opts level = "" := by
  simp [beginLine, h]

/-- Auxiliary: with pretty-printing off, `_endLine` is empty at every
level. -/
theorem endLine_not_pretty (opts : JSONWriterOptions)
    (h : opts.prettyPrint = false) (level : Nat) : endLine opts level = "" := by
  simp [endLine, h]

/-- Auxiliary: with pretty-printing on, `_beginLine` produces the indent
string repeated `(offset + level)` times (clamped at zero), one fewer
copy than the `offset + level + 1` array length, because
`Array(n).join` inserts only `n - 1` separators. -/
theorem beginLine_pretty (opts : JSONWriterOptions)
    (h : opts.prettyPrint = true) (level : Nat) :
    beginLine opts level =
      indentRepeat (opts.offset + (level : Int)).toNat opts.indent := by
  unfold beginLine
  rw [h]
  simp only [Bool.not_true, Bool.false_eq_true, if_false]
  by_cases hpos : (0 : Int) < opts.offset + (level : Int) + 1
  · rw [if_pos hpos]
    have hn : (opts.offset + (level : Int) + 1).toNat =
        (opts.offset + (level : Int)).toNat + 1 := by omega
    rw [hn, arrayJoin_succ]
  · rw [if_neg hpos]
    have hz : (opts.offset + (level : Int)).toNat = 0 := by omega
    rw [hz]
    rfl

mutual
/-- Auxiliary: with pretty-printing off, the rendering of a value does
not depend on the nesting level. -/
theorem serializeObject_level_const (opts : JSONWriterOptions)
    (h : opts.prettyPrint = false) (v : XMLSerializedValue) :
    ∀ l1 l2 : Nat, serializeObject opts v l1 = serializeObject opts v l2 := by
  match v with
  | .scalar s => intro l1 l2; rfl
  | .arr items =>
    intro l1 l2
    simp only [serializeObject, beginLine_not_pretty opts h,
      endLine_not_pretty opts h,
      serializeItems_level_const opts h items l1 l2 items.length 0]
  | .map entries =>
    intro l1 l2
    simp only [serializeObject, beginLine_not_pretty opts h,
      endLine_not_pretty opts h, h, Bool.and_false,
      serializeEntries_level_const opts h entries l1 l2 entries.length 0
        (isLeafNode (.map entries))]
/-- Auxiliary: item-list form of `serializeObject_level_const`. -/
theorem serializeItems_level_const (opts : JSONWriterOptions)
    (h : opts.prettyPrint = false) (xs : XMLValueList) :
    ∀ (l1 l2 len i : Nat),
      serializeItems opts xs l1 len i = serializeItems opts xs l2 len i := by
  match xs with
  | .nil => intro l1 l2 len i; rfl
  | .cons v rest =>
    intro l1 l2 len i
    simp only [serializeItems, beginLine_not_pretty opts h,
      endLine_not_pretty opts h,
      serializeObject_level_const opts h v (l1 + 1) (l2 + 1),
      serializeItems_level_const opts h rest l1 l2 len (i + 1)]
/-- Auxiliary: entry-list form of `serializeObject_level_const`. -/
theorem serializeEntries_level_const (opts : JSONWriterOptions)
    (h : opts.prettyPrint = false) (xs : XMLEntryList) :
    ∀ (l1 l2 len i : Nat) (isLeaf : Bool),
      serializeEntries opts xs l1 len i isLeaf =
        serializeEntries opts xs l2 len i isLeaf := by
  match xs with
  | .nil => intro l1 l2 len i isLeaf; rfl
  | .cons k v rest =>
    intro l1 l2 len i isLeaf
    simp only [serializeEntries, beginLine_not_pretty opts h,
      endLine_not_pretty opts h, h, Bool.and_false,
      serializeObject_level_const opts h v (l1 + 1) (l2 + 1),
      serializeEntries_level_const opts h rest l1 l2 len (i + 1) isLeaf]
end

/-- Claim C6, counterexample: with the default pretty options (indent
two spaces, offset 0) a line at level 1 begins with the indent repeated
once, not `offset + level + 1 = 2` times as claimed:
`new Array(offset + level + 1).join(indent)` yields one fewer copy than
its argument. -/
theorem beginLine_ne_claimed_repeat :
    beginLine prettyDefaultOptions 1 = indentRepeat 1 "  " ∧
    beginLine prettyDefaultOptions 1 ≠ indentRepeat (0 + 1 + 1) "  " :=
  ⟨by decide, by decide⟩

/-- Claim C6 (amended): in pretty-print mode each line begins with the
configured indent string repeated `offset + level` times (the code
builds `new Array(offset + level + 1).join(indent)`, which emits one
fewer copy than the array length, clamped at zero for negative offsets)
and ends with the configured newline string; when `prettyPrint` is
false, `_beginLine` and `_endLine` are empty everywhere and the rendered
output is independent of the nesting level. -/
theorem beginLine_endLine_amended (opts : JSONWriterOptions) (level : Nat) :
    (opts.prettyPrint = false →
      beginLine opts level = "" ∧ endLine opts level = "" ∧
      ∀ v, serializeObject opts v level = serializeObject opts v 0) ∧
    (opts.prettyPrint = true →
      beginLine opts level =
        indentRepeat (opts.offset + (level : Int)).toNat opts.indent ∧
      endLine opts level = opts.newline) := by
  constructor
  · intro h
    exact ⟨beginLine_not_pretty opts h level, endLine_not_pretty opts h level,
      fun v => serializeObject_level_const opts h v level 0⟩
  · intro h
    exact ⟨beginLine_pretty opts h level, by simp [endLine, h]⟩

/-- Witness for `beginLine_endLine_amended` at concrete options: the
compact defaults at level 3 and the pretty defaults at level 2. -/
theorem beginLine_endLine_amended_witness :
    (beginLine compactDefaultOptions 3 = "" ∧
      endLine compactDefaultOptions 3 = "" ∧
      serializeObject compactDefaultOptions twoScalarMap 3 =
        serializeObject compactDefaultOptions twoScalarMap 0) ∧
    beginLine prettyDefaultOptions 2 = indentRepeat 2 "  " ∧
    endLine prettyDefaultOptions 2 = "\n" :=
  ⟨⟨((beginLine_endLine_amended compactDefaultOptions 3).1 rfl).1,
    ((beginLine_endLine_amended compactDefaultOptions 3).1 rfl).2.1,
    ((beginLine_endLine_amended compactDefaultOptions 3).1 rfl).2.2 twoScalarMap⟩,
   (((beginLine_endLine_amended prettyDefaultOptions 2).2 rfl).1).trans (by decide),
   ((beginLine_endLine_amended prettyDefaultOptions 2).2 rfl).2⟩

/-- Auxiliary: a prefix extracted from a qualified name that passed
validation is a nonempty string (so JS truthiness of the prefix agrees
with non-nullness). -/
theorem qnamePfx_nonempty (q : String) (h : validateQName q = Except.ok ()) :
    ∀ p, qnamePfx q = some p → p ≠ "" := by
  intro p hp hemp
  subst hemp
  have h2 : matchesQName q = true := by
    unfold validateQName at h
    split at h
    · simp at h
    · split at h
      · simp at h
      · rename_i hq2
        simpa using hq2
  unfold qnamePfx at hp
  unfold matchesQName at h2
  cases hs : splitColon q with
  | nil => rw [hs] at hp; simp at hp
  | cons a tl =>
    cases tl with
    | nil => rw [hs] at hp; simp at hp
    | cons b tl2 =>
      cases tl2 with
      | nil =>
        rw [hs] at hp h2
        simp only [Option.some.injEq] at hp
        subst hp
        have hne : ncNameOk "" = false := rfl
        simp [hne] at h2
      | cons c tl3 => rw [hs] at hp; simp at hp

/-- Claim C5: for a qualified name that passes `validateQName`,
`extractNames` raises `NamespaceError` exactly when a non-null prefix
meets a null namespace, prefix `xml` meets a namespace other than the
XML namespace URI, prefix `xmlns` or qualified name `xmlns` meets a
namespace other than the XMLNS namespace URI, or the XMLNS namespace URI
meets a name that is neither `xmlns` nor `xmlns`-prefixed; in every
other case it returns the namespace with the prefix and local name split
on the single colon. -/
theorem extractNames_spec (ns? : Option String) (q : String)
    (h : validateQName q = Except.ok ()) :
    (extractNames ns? q = Except.error DOMException.NamespaceError ↔
      (qnamePfx q ≠ none ∧ normalizeNamespace ns? = none) ∨
      (qnamePfx q = some "xml" ∧ normalizeNamespace ns? ≠ some namespaceXML) ∨
      ((qnamePfx q = some "xmlns" ∨ q = "xmlns") ∧
        normalizeNamespace ns? ≠ some namespaceXMLNS) ∨
      (normalizeNamespace ns? = some namespaceXMLNS ∧
        qnamePfx q ≠ some "xmlns" ∧ q ≠ "xmlns")) ∧
    (extractNames ns? q ≠ Except.error DOMException.NamespaceError →
      extractNames ns? q =
        Except.ok (normalizeNamespace ns?, qnamePfx q, qnameLocal q)) := by
  have htruthy : strTruthy (qnamePfx q) = true ↔ qnamePfx q ≠ none := by
    cases hq : qnamePfx q with
    | none => simp [strTruthy]
    | some p =>
      have hp := qnamePfx_nonempty q h p hq
      have hfalse : p.isEmpty = false :=
        Bool.eq_false_iff.mpr (fun ht => hp ((String.isEmpty_iff p).mp ht))
      simp [strTruthy, hfalse]
  unfold extractNames
  rw [h]
  simp only []
  split_ifs with h1 h2 h3 h4
  · exact ⟨⟨fun _ => Or.inl ⟨htruthy.mp h1.1, h1.2⟩, fun _ => rfl⟩,
      fun hne => absurd rfl hne⟩
  · exact ⟨⟨fun _ => Or.inr (Or.inl h2), fun _ => rfl⟩,
      fun hne => absurd rfl hne⟩
  · exact ⟨⟨fun _ => Or.inr (Or.inr (Or.inl ⟨h3.2, h3.1⟩)), fun _ => rfl⟩,
      fun hne => absurd rfl hne⟩
  · exact ⟨⟨fun _ => Or.inr (Or.inr (Or.inr h4)), fun _ => rfl⟩,
      fun hne => absurd rfl hne⟩
  · constructor
    · constructor
      · intro hcontra; simp at hcontra
      · intro hrhs
        exfalso
        rcases hrhs with h' | h' | h' | h'
        · exact h1 ⟨htruthy.mpr h'.1, h'.2⟩
        · exact h2 h'
        · exact h3 ⟨h'.2, h'.1⟩
        · exact h4 h'
    · intro _; rfl

/-- Witness for `extractNames_spec`: the four concrete examples of the
claim — `extractNames(null, "xmlns")` and `extractNames(null, "p:local")`
fail with `NamespaceError`, while `extractNames(XMLNS_URI, "xmlns")` and
`extractNames(XML_URI, "xml:lang")` succeed. -/
theorem extractNames_spec_witness :
    extractNames none "xmlns" = Except.error DOMException.NamespaceError ∧
    extractNames (some namespaceXMLNS) "xmlns" =
      Except.ok (some namespaceXMLNS, none, "xmlns") ∧
    extractNames none "p:local" = Except.error DOMException.NamespaceError ∧
    extractNames (some namespaceXML) "xml:lang" =
      Except.ok (some namespaceXML, some "xml", "lang") := by
  refine ⟨?_, rfl, ?_, rfl⟩
  · exact (extractNames_spec none "xmlns" rfl).1.mpr
      (Or.inr (Or.inr (Or.inl ⟨Or.inr rfl, by decide⟩)))
  · exact (extractNames_spec none "p:local" rfl).1.mpr
      (Or.inl ⟨by decide, rfl⟩)
